import Mathlib

/-!
Shallow embedding of `time-since-deploy` (`main.go`) in Lean 4.

The program resolves a GitLab project by name search, paginates through its
"prod/" environments, and concurrently fetches each environment's last
deployment, printing one formatted row per deployment.

Network calls are modelled by passing their results (or a page-indexed server
function) as parameters; errors are `Except String`; Go nil pointers are
`Option`; a nil-pointer dereference is the explicit `DriftResult.panicked`
outcome.  Timestamps and durations are `Int` nanoseconds, as in Go's
`time.Time`/`time.Duration`.
-/

namespace TimeSinceDeploy

/-- Model of `gitlab.Project`: only the `ID` field is used by the program. -/
structure Project where
  ID : Int
deriving DecidableEq, Repr

/-- Model of `gitlab.Commit`: only `ShortID` is used. -/
structure Commit where
  ShortID : String
deriving DecidableEq, Repr

/-- Model of the embedded `Deployable` struct of `gitlab.Deployment`.
In Go the struct itself is a value (always present); its `FinishedAt`
(`*time.Time`) and `Commit` (`*Commit`) fields are nilable pointers. -/
structure Deployable where
  FinishedAt : Option Int
  Commit : Option Commit
deriving DecidableEq, Repr

/-- Model of `gitlab.Deployment`: the program only reads `.Deployable`,
which in Go is an embedded (non-pointer, hence always present) struct. -/
structure Deployment where
  Deployable : Deployable
deriving DecidableEq, Repr

/-- Model of `gitlab.Environment`: fields read by the program. -/
structure Environment where
  ID : Int
  Name : String
  LastDeployment : Option Deployment
deriving DecidableEq, Repr

/-- The program's own `EnvDep` record (display name, production env id). -/
structure EnvDep where
  Name : String
  Prod : Int
deriving DecidableEq, Repr

/-! ### Project resolution (`getProjectPid`, main.go:151-171) -/

/-- Embedding of `getProjectPid`.  The network call's outcome is passed as
`fetch`; on success the returned project list is inspected: more than one
match and fewer than one match are errors, otherwise `ps[0].ID` is returned. -/
def getProjectPid (fetch : Except String (List Project)) : Except String Int :=
  match fetch with
  | .error e => .error ("listing projects: " ++ e)
  | .ok ps =>
    if ps.length > 1 then .error "too many projects matched"
    else if ps.length < 1 then .error "no projects matched"
    else
      match ps with
      | [] => .error "no projects matched"
      | p :: _ => .ok p.ID

/-! ### Environment-name splitting (`getEnvs`, main.go:136-146) -/

/-- Model of Go's `strings.Split(s, "/")` on the character list: split at
every occurrence of `/`; a trailing separator yields a trailing empty part,
and the empty string yields a single empty part. -/
def splitSlashAux : List Char → List Char → List String
  | [], cur => [String.mk cur.reverse]
  | c :: rest, cur =>
      if c = '/' then String.mk cur.reverse :: splitSlashAux rest []
      else splitSlashAux rest (c :: cur)

/-- Model of `strings.Split(s, "/")`. -/
def splitSlash (s : String) : List String :=
  splitSlashAux s.toList []

/-- One iteration of the derivation loop at the end of `getEnvs`: split the
environment's name on `/`; skip it (`continue`) unless the split has exactly
two parts, else append the second part as display name with the env's ID. -/
def deriveStep (servDeps : List EnvDep) (env : Environment) : List EnvDep :=
  let parts := splitSlash env.Name
  if parts.length ≠ 2 then servDeps
  else servDeps ++ [{ Name := parts.getD 1 "", Prod := env.ID }]

/-- Embedding of the derivation loop at the end of `getEnvs`. -/
def deriveServDeps (allEnvs : List Environment) : List EnvDep :=
  allEnvs.foldl deriveStep []

/-- Spec-side description of the derivation, per environment: an entry is
produced exactly when the name splits into exactly two `/`-separated parts
(empty parts included), with the second part as display name. -/
def servDepOf (env : Environment) : Option EnvDep :=
  match splitSlash env.Name with
  | [_, b] => some { Name := b, Prod := env.ID }
  | _ => none

/-! ### Duration formatting (`durafmt.Parse(d).LimitFirstN(2).String()`)

Embedding of the `github.com/hako/durafmt` library as used at main.go:104-106:
the duration is truncated to microseconds, decomposed greedily into years /
weeks / days / hours / minutes / seconds / milliseconds / microseconds, each
non-zero component is rendered as `<value> <unit>` (singular form when the
value is 1), a zero duration renders as `0 seconds`, a negative duration is
rendered as its absolute value with `-` glued to the first component, and
`LimitFirstN(n)` keeps only the first `n` space-separated value-unit pairs. -/

/-- The unit table of durafmt: factor in microseconds, plural and singular
unit names, ordered from most to least significant. -/
def durafmtUnitTable : List (Nat × String × String) :=
  [(365 * 24 * 3600 * 1000000, "years", "year"),
   (7 * 24 * 3600 * 1000000, "weeks", "week"),
   (24 * 3600 * 1000000, "days", "day"),
   (3600 * 1000000, "hours", "hour"),
   (60 * 1000000, "minutes", "minute"),
   (1000000, "seconds", "second"),
   (1000, "milliseconds", "millisecond"),
   (1, "microseconds", "microsecond")]

/-- Greedy decomposition of a microsecond count along the unit table, as in
durafmt's chain of integer divisions with running remainder. -/
def durafmtDecompose : Nat → List (Nat × String × String) → List (Nat × String × String)
  | _, [] => []
  | rem, (f, pl, sg) :: rest => (rem / f, pl, sg) :: durafmtDecompose (rem % f) rest

/-- Rendering of one component: skipped when zero, singular when 1. -/
def durafmtUnitWords (v : Nat) (pl sg : String) : List String :=
  if v > 1 then [toString v, pl]
  else if v = 1 then ["1", sg]
  else []

/-- All words of the rendered duration, before the `LimitFirstN` cut. -/
def durafmtAllWords (micros : Nat) : List String :=
  ((durafmtDecompose micros durafmtUnitTable).map
      (fun u => durafmtUnitWords u.1 u.2.1 u.2.2)).flatten

/-- Embedding of `durafmt.Parse(ns).LimitFirstN(limitN).String()` for a
duration of `ns` nanoseconds. -/
def durafmtString (ns : Int) (limitN : Nat) : String :=
  let micros := ns.natAbs / 1000
  let words := if ns = 0 then ["0", "seconds"] else durafmtAllWords micros
  let limited :=
    if 0 < limitN ∧ limitN * 2 < words.length then words.take (limitN * 2) else words
  match limited with
  | [] => if ns < 0 then "-" else ""
  | w :: ws => String.intercalate " " ((if ns < 0 then "-" ++ w else w) :: ws)

/-! ### Drift fetching and printing (`getDrift`, main.go:91-109) -/

/-- Model of Go's `fmt` left-justified width padding `%-18s` (general `w`). -/
def padRight (s : String) (w : Nat) : String :=
  s ++ String.mk (List.replicate (w - s.length) ' ')

/-- The outcome of one drift-fetch task: a returned value (`ok` with the
optionally printed row, or `err` with the returned error message), or a Go
runtime panic from dereferencing a nil pointer on the printing path. -/
inductive DriftResult where
  | ok (row : Option String)
  | err (msg : String)
  | panicked
deriving DecidableEq, Repr

/-- Embedding of `getDrift`: the `GetEnvironment` call's outcome is passed as
`fetched`; `now` is the wall-clock instant at which `time.Since` is taken
(nanoseconds).  A fetch error is wrapped and returned; a missing last
deployment returns successfully with no row; otherwise `*pdep.FinishedAt`
and `pdep.Commit.ShortID` are dereferenced without nil checks (panicking if
absent) and the fixed-width row is printed. -/
def getDrift (now : Int) (ed : EnvDep) (fetched : Except String Environment) : DriftResult :=
  match fetched with
  | .error e => .err ("get prod environment: " ++ e)
  | .ok penv =>
    match penv.LastDeployment with
    | none => .ok none
    | some dep =>
      let pdep := dep.Deployable
      match pdep.FinishedAt with
      | none => .panicked
      | some fin =>
        match pdep.Commit with
        | none => .panicked
        | some cm =>
          let lastDep := now - fin
          .ok (some (padRight ed.Name 18 ++ "| " ++ cm.ShortID ++ "  | " ++
            durafmtString lastDep 2))

/-! ### Pagination (`getEnvs`, main.go:111-149)

The `ListEnvironments` call is modelled as a function from a page number to
either an error or a pair of that page's results and the response's
`NextPage` value (0 when the upstream reports no further page, as in
go-gitlab).  The Go `for page != 0` loop has no bound in the source, so the
embedding carries explicit fuel and returns `none` if the fuel runs out; the
loop also records the sequence of requested page numbers. -/

/-- Embedding of the pagination loop of `getEnvs`: starting from `page`,
request pages and append their results to `allEnvs` until the reported next
page is 0; a page-fetch error aborts with the wrapped error, discarding the
accumulator.  `req` logs the requested page numbers. -/
def listEnvsLoop (server : Nat → Except String (List Environment × Nat)) :
    Nat → Nat → List Environment → List Nat →
      Option (List Nat × Except String (List Environment))
  | fuel, page, allEnvs, req =>
    if page = 0 then some (req, .ok allEnvs)
    else
      match fuel with
      | 0 => none
      | fuel + 1 =>
        match server page with
        | .error e => some (req ++ [page], .error ("list environments: " ++ e))
        | .ok (envs, next) => listEnvsLoop server fuel next (allEnvs ++ envs) (req ++ [page])

/-- The paging phase of `getEnvs`: `page` starts at 1 with an empty
accumulator. -/
def listAllEnvironments (server : Nat → Except String (List Environment × Nat))
    (fuel : Nat) : Option (List Nat × Except String (List Environment)) :=
  listEnvsLoop server fuel 1 [] []

/-- Embedding of `getEnvs`: paginate, then derive the (display name, id)
entries; a paging error is returned as is, with no environment list. -/
def getEnvs (server : Nat → Except String (List Environment × Nat)) (fuel : Nat) :
    Option (List Nat × Except String (List EnvDep)) :=
  match listAllEnvironments server fuel with
  | none => none
  | some (req, .error e) => some (req, .error e)
  | some (req, .ok allEnvs) => some (req, .ok (deriveServDeps allEnvs))

/-- An honest upstream holding the given pages numbered from 1: each request
returns the page's results and the next page number, 0 after the last. -/
def stdServer (pages : List (List Environment)) (page : Nat) :
    Except String (List Environment × Nat) :=
  .ok (pages.getD (page - 1) [], if page < pages.length then page + 1 else 0)

/-- An upstream that serves the given pages (each pointing at a further
page) and fails with `msg` on the request after the last good page. -/
def errServer (good : List (List Environment)) (msg : String) (page : Nat) :
    Except String (List Environment × Nat) :=
  if page ≤ good.length then .ok (good.getD (page - 1) [], page + 1)
  else .error msg

/-! ### The drift reporter (`getDrifts`, main.go:71-89)

`getDrifts` prints a header, spawns one goroutine per `EnvDep` (each running
`getDrift` and logging `get drift <name>: <err>` on error), waits on the
`sync.WaitGroup`, and returns `nil`.  Two complementary models are used:

* a functional model collecting each task's observable output (the printed
  rows and logged lines; completion order is not guaranteed by the program,
  and none of the verified properties depends on it), where a goroutine
  panic kills the whole process (`none`);
* a small-step interleaving model of the fan-out/join structure itself, for
  the scheduling properties. -/

/-- One line of observable task output: a stdout row or a stderr log line. -/
inductive TaskOutput where
  | row (line : String)
  | logged (line : String)
deriving DecidableEq, Repr

/-- Observable effect of one drift goroutine: `.error ()` models a Go panic
(which kills the process); otherwise the task's printed row, or the log
line `get drift <name>: <err>` written when `getDrift` returns an error. -/
def taskRun (now : Int) (fetch : EnvDep → Except String Environment) (ed : EnvDep) :
    Except Unit (Option TaskOutput) :=
  match getDrift now ed (fetch ed) with
  | .panicked => .error ()
  | .ok none => .ok none
  | .ok (some line) => .ok (some (.row line))
  | .err e => .ok (some (.logged ("get drift " ++ ed.Name ++ ": " ++ e)))

/-- The non-panicking projection of `taskRun`. -/
def taskOut (now : Int) (fetch : EnvDep → Except String Environment) (ed : EnvDep) :
    Option TaskOutput :=
  match getDrift now ed (fetch ed) with
  | .panicked => none
  | .ok none => none
  | .ok (some line) => some (.row line)
  | .err e => some (.logged ("get drift " ++ ed.Name ++ ": " ++ e))

/-- The header line printed by `getDrifts`. -/
def driftsHeader : String := "SERVICE           | SHORT SHA | LAST DEPLOY"

/-- Functional model of `getDrifts`: `none` when some goroutine panicked
(the process dies and the function never returns); otherwise the header,
all tasks' outputs, and the function's returned error — always `nil`. -/
def getDrifts (now : Int) (fetch : EnvDep → Except String Environment)
    (envDeps : List EnvDep) : Option (String × List TaskOutput × Option String) :=
  match envDeps.mapM (taskRun now fetch) with
  | .error _ => none
  | .ok outs => some (driftsHeader, outs.reduceOption, none)

/-- Status of one spawned goroutine in the fan-out of `getDrifts`. -/
inductive TaskState where
  | notStarted
  | running
  | done
deriving DecidableEq, Repr

/-- Main-thread control point within `getDrifts`: about to spawn task `k`
(so `k` tasks already spawned; `k` = task count means the loop is finished
and the thread is at `wg.Wait()`), or past the join and returned. -/
inductive MainPC where
  | spawning (k : Nat)
  | returned
deriving DecidableEq, Repr

/-- Interleaved-execution state of `getDrifts`: the main thread's control
point and each goroutine's status. -/
structure DriftsExec where
  pc : MainPC
  task : Nat → TaskState

/-- Pointwise update of a task-status map. -/
def updTask (f : Nat → TaskState) (i : Nat) (v : TaskState) : Nat → TaskState :=
  fun j => if j = i then v else f j

/-- Small-step interleaving semantics of the fan-out/join in `getDrifts`
over one task per entry of `envDeps`: the main thread spawns the goroutines
one per loop iteration (`wg.Add(1); go …`), a spawned goroutine may finish
at any time (`wg.Done`), and the main thread passes `wg.Wait()` and returns
only when every added goroutine has finished. -/
inductive DriftsStep (envDeps : List EnvDep) : DriftsExec → DriftsExec → Prop where
  | spawn (s : DriftsExec) (k : Nat) (hpc : s.pc = .spawning k)
      (hk : k < envDeps.length) :
      DriftsStep envDeps s ⟨.spawning (k + 1), updTask s.task k .running⟩
  | finish (s : DriftsExec) (i : Nat) (hi : s.task i = .running) :
      DriftsStep envDeps s ⟨s.pc, updTask s.task i .done⟩
  | ret (s : DriftsExec) (hpc : s.pc = .spawning envDeps.length)
      (hall : ∀ i, i < envDeps.length → s.task i = .done) :
      DriftsStep envDeps s ⟨.returned, s.task⟩

/-- Initial state of `getDrifts`: no goroutine spawned yet. -/
def driftsInit : DriftsExec := ⟨.spawning 0, fun _ => .notStarted⟩

/-- States reachable by the `getDrifts` interleaving semantics. -/
inductive DriftsReach (envDeps : List EnvDep) : DriftsExec → Prop where
  | init : DriftsReach envDeps driftsInit
  | step {s t : DriftsExec} : DriftsReach envDeps s → DriftsStep envDeps s t →
      DriftsReach envDeps t

theorem deriveStep_eq (acc : List EnvDep) (env : Environment) :
    deriveStep acc env = acc ++ (servDepOf env).toList := by
  unfold deriveStep servDepOf
  rcases h : splitSlash env.Name with _ | ⟨a, _ | ⟨b, _ | ⟨c, t⟩⟩⟩ <;> simp [h]

theorem deriveServDeps_go (l : List Environment) :
    ∀ acc : List EnvDep, l.foldl deriveStep acc = acc ++ l.filterMap servDepOf := by
  induction l with
  | nil => intro acc; simp
  | cons e t ih =>
      intro acc
      rw [List.foldl_cons, deriveStep_eq, ih, List.filterMap_cons]
      cases h : servDepOf e <;> simp [h]

end TimeSinceDeploy

namespace TimeSinceDeploy

/-- C1: resolving with an empty result list fails with the "no match" error,
with two or more results fails with the "ambiguous match" error
("too many projects matched"), and with exactly one result succeeds
returning that project's ID. -/
theorem getProjectPid_cases (ps : List Project) :
    (ps = [] → getProjectPid (.ok ps) = .error "no projects matched") ∧
    (2 ≤ ps.length → getProjectPid (.ok ps) = .error "too many projects matched") ∧
    (∀ p, ps = [p] → getProjectPid (.ok ps) = .ok p.ID) := by
  refine ⟨?_, ?_, ?_⟩
  · rintro rfl; rfl
  · intro h
    rcases ps with _ | ⟨p, _ | ⟨q, t⟩⟩
    · simp at h
    · simp at h
    · unfold getProjectPid
      simp [List.length]
  · rintro p rfl; rfl

theorem getProjectPid_cases_witness :
    getProjectPid (.ok [({ ID := 7 } : Project)]) = .ok 7 :=
  (getProjectPid_cases [{ ID := 7 }]).2.2 { ID := 7 } rfl

/-- C2 counterexample: the name `"prod/"` does not split into two non-empty
parts (the second part is empty), yet the derivation keeps an entry for it,
with empty display name, rather than discarding it. -/
theorem deriveServDeps_keeps_empty_part :
    splitSlash "prod/" = ["prod", ""] ∧
    deriveServDeps [{ ID := 5, Name := "prod/", LastDeployment := none }] =
      [{ Name := "", Prod := 5 }] := by
  constructor <;> decide

/-- C2 (amended): the derivation keeps exactly the environments whose name
splits into exactly two `/`-separated parts — non-emptiness of the parts is
not checked — producing, in input order, an entry whose display name is the
second part and whose identifier is the environment's ID; all other names
are discarded silently, and no error is ever produced (the function is
total). -/
theorem deriveServDeps_eq_filterMap (allEnvs : List Environment) :
    deriveServDeps allEnvs = allEnvs.filterMap servDepOf :=
  (deriveServDeps_go allEnvs []).trans (by simp)

/-- C3: whenever the fetched environment has a last deployment (with its
finish timestamp and commit present), the printed row is the display name
left-padded to width 18, then `"| "`, the short commit SHA, `"  | "`, and
the elapsed duration formatted with at most its two most significant
units. -/
theorem getDrift_row_format (now : Int) (ed : EnvDep) (penv : Environment)
    (dep : Deployment) (fin : Int) (cm : Commit)
    (h1 : penv.LastDeployment = some dep)
    (h2 : dep.Deployable.FinishedAt = some fin)
    (h3 : dep.Deployable.Commit = some cm) :
    getDrift now ed (.ok penv) =
      .ok (some (padRight ed.Name 18 ++ "| " ++ cm.ShortID ++ "  | " ++
        durafmtString (now - fin) 2)) := by
  simp [getDrift, h1, h2, h3]

theorem getDrift_row_format_witness :
    getDrift (74 * 3600 * 1000000000) { Name := "api", Prod := 2 }
      (.ok { ID := 2, Name := "prod/api",
             LastDeployment := some { Deployable :=
               { FinishedAt := some 0, Commit := some { ShortID := "abc1234" } } } }) =
      .ok (some "api               | abc1234  | 3 days 2 hours") :=
  (getDrift_row_format (74 * 3600 * 1000000000) { Name := "api", Prod := 2 }
      { ID := 2, Name := "prod/api",
        LastDeployment := some { Deployable :=
          { FinishedAt := some 0, Commit := some { ShortID := "abc1234" } } } }
      { Deployable := { FinishedAt := some 0, Commit := some { ShortID := "abc1234" } } }
      0 { ShortID := "abc1234" } rfl rfl rfl).trans (by decide)

/-- C6: an environment fetched successfully but with no recorded last
deployment produces no output row and no error. -/
theorem getDrift_no_deployment (now : Int) (ed : EnvDep) (penv : Environment)
    (h : penv.LastDeployment = none) :
    getDrift now ed (.ok penv) = .ok none := by
  simp [getDrift, h]

theorem getDrift_no_deployment_witness :
    getDrift 0 { Name := "api", Prod := 2 }
      (.ok { ID := 2, Name := "prod/api", LastDeployment := none }) = .ok none :=
  getDrift_no_deployment 0 { Name := "api", Prod := 2 }
    { ID := 2, Name := "prod/api", LastDeployment := none } rfl

/-- C9: when the fetched environment's last deployment is present (the only
field the code checks), the printing path completes without a Go panic
exactly when the deployment's finish timestamp and commit record are both
present; the deployable record itself is an embedded value struct in the Go
client type and is therefore always present.  When either nilable field is
absent the task panics rather than erroring: no further check guards the
printing path. -/
theorem getDrift_printing_safety (now : Int) (ed : EnvDep) (penv : Environment)
    (dep : Deployment) (h : penv.LastDeployment = some dep) :
    getDrift now ed (.ok penv) ≠ DriftResult.panicked ↔
      (dep.Deployable.FinishedAt.isSome ∧ dep.Deployable.Commit.isSome) := by
  cases h2 : dep.Deployable.FinishedAt <;> cases h3 : dep.Deployable.Commit <;>
    simp [getDrift, h, h2, h3]

theorem getDrift_printing_safety_witness :
    getDrift 0 { Name := "api", Prod := 2 }
      (.ok { ID := 2, Name := "prod/api",
             LastDeployment := some { Deployable :=
               { FinishedAt := some 0, Commit := some { ShortID := "abc1234" } } } }) ≠
      DriftResult.panicked :=
  (getDrift_printing_safety 0 { Name := "api", Prod := 2 }
      { ID := 2, Name := "prod/api",
        LastDeployment := some { Deployable :=
          { FinishedAt := some 0, Commit := some { ShortID := "abc1234" } } } }
      { Deployable := { FinishedAt := some 0, Commit := some { ShortID := "abc1234" } } }
      rfl).mpr (by decide)

theorem listEnvsLoop_std (pages : List (List Environment)) :
    ∀ (d k : Nat), k < pages.length → pages.length - (k + 1) = d →
    ∀ (acc : List Environment) (req : List Nat) (fuel : Nat),
      pages.length - k ≤ fuel →
      listEnvsLoop (stdServer pages) fuel (k + 1) acc req =
        some (req ++ List.range' (k + 1) (pages.length - k),
              .ok (acc ++ (pages.drop k).flatten)) := by
  intro d
  induction d with
  | zero =>
    intro k hk hd acc req fuel hfuel
    have hk1 : k + 1 = pages.length := by omega
    cases fuel with
    | zero => omega
    | succ f =>
      rw [listEnvsLoop]
      simp only [if_neg (Nat.succ_ne_zero k)]
      have hserver : stdServer pages (k + 1) = .ok (pages.getD k [], 0) := by
        unfold stdServer
        simp [if_neg (by omega : ¬ k + 1 < pages.length)]
      simp only [hserver]
      rw [listEnvsLoop.eq_def]
      have hrange : pages.length - k = 1 := by omega
      have hdrop : pages.drop k = [pages.getD k []] := by
        rw [List.getD_eq_getElem pages [] hk]
        rw [List.drop_eq_getElem_cons hk]
        have : pages.drop (k + 1) = [] := by
          apply List.drop_eq_nil_of_le
          omega
        rw [this]
      rw [hrange, hdrop]
      simp [List.range']
  | succ d ih =>
    intro k hk hd acc req fuel hfuel
    have hlt : k + 1 < pages.length := by omega
    cases fuel with
    | zero => omega
    | succ f =>
      rw [listEnvsLoop]
      simp only [if_neg (Nat.succ_ne_zero k)]
      have hserver : stdServer pages (k + 1) = .ok (pages.getD k [], k + 1 + 1) := by
        unfold stdServer
        simp [if_pos hlt]
      simp only [hserver]
      rw [ih (k + 1) hlt (by omega) (acc ++ pages.getD k []) (req ++ [k + 1]) f (by omega)]
      have hdrop : pages.drop k = pages.getD k [] :: pages.drop (k + 1) := by
        rw [List.getD_eq_getElem pages [] hk]
        exact List.drop_eq_getElem_cons hk
      have hrange : pages.length - k = (pages.length - (k + 1)) + 1 := by omega
      rw [hdrop, hrange]
      simp [List.range']

/-- C4: against an upstream holding `pages` (numbered from 1, each page
pointing to the next, the last reporting no further page), the lister
requests exactly pages `1, 2, …, pages.length` in order and returns the
concatenation of all pages' results, with none lost and none duplicated. -/
theorem getEnvs_pagination (pages : List (List Environment)) (fuel : Nat)
    (hne : pages ≠ []) (hfuel : pages.length ≤ fuel) :
    listAllEnvironments (stdServer pages) fuel =
      some (List.range' 1 pages.length, .ok pages.flatten) := by
  have h0 : 0 < pages.length := List.length_pos.mpr hne
  have h := listEnvsLoop_std pages (pages.length - 1) 0 h0 (by omega) [] [] fuel (by omega)
  simpa [listAllEnvironments] using h

theorem getEnvs_pagination_witness :
    listAllEnvironments
      (stdServer [[{ ID := 1, Name := "prod/a", LastDeployment := none }],
                  [{ ID := 2, Name := "prod/b", LastDeployment := none }]]) 2 =
      some ([1, 2], .ok [{ ID := 1, Name := "prod/a", LastDeployment := none },
                         { ID := 2, Name := "prod/b", LastDeployment := none }]) :=
  (getEnvs_pagination
      [[{ ID := 1, Name := "prod/a", LastDeployment := none }],
       [{ ID := 2, Name := "prod/b", LastDeployment := none }]] 2
      (by decide) (by decide)).trans rfl

theorem listEnvsLoop_err (good : List (List Environment)) (msg : String) :
    ∀ (d k : Nat), k ≤ good.length → good.length - k = d →
    ∀ (acc : List Environment) (req : List Nat) (fuel : Nat),
      good.length - k < fuel →
      listEnvsLoop (errServer good msg) fuel (k + 1) acc req =
        some (req ++ List.range' (k + 1) (good.length - k + 1),
              .error ("list environments: " ++ msg)) := by
  intro d
  induction d with
  | zero =>
    intro k hk hd acc req fuel hfuel
    cases fuel with
    | zero => omega
    | succ f =>
      rw [listEnvsLoop]
      simp only [if_neg (Nat.succ_ne_zero k)]
      have hserver : errServer good msg (k + 1) = .error msg := by
        unfold errServer
        simp [if_neg (by omega : ¬ k + 1 ≤ good.length)]
      simp only [hserver]
      have hrange : good.length - k = 0 := by omega
      rw [hrange]
      simp [List.range']
  | succ d ih =>
    intro k hk hd acc req fuel hfuel
    have hlt : k + 1 ≤ good.length := by omega
    cases fuel with
    | zero => omega
    | succ f =>
      rw [listEnvsLoop]
      simp only [if_neg (Nat.succ_ne_zero k)]
      have hserver : errServer good msg (k + 1) = .ok (good.getD k [], k + 1 + 1) := by
        unfold errServer
        simp [if_pos hlt]
      simp only [hserver]
      rw [ih (k + 1) hlt (by omega) (acc ++ good.getD k []) (req ++ [k + 1]) f (by omega)]
      have hrange : good.length - k + 1 = (good.length - (k + 1) + 1) + 1 := by omega
      rw [hrange]
      simp [List.range']

/-- C5: against an upstream that serves `good.length` pages successfully and
fails on the next request, the whole listing operation fails with the
wrapped error and returns no environment list at all — the environments
accumulated from the earlier successful pages are discarded, never returned
alongside the error. -/
theorem getEnvs_page_error (good : List (List Environment)) (msg : String) (fuel : Nat)
    (hfuel : good.length < fuel) :
    getEnvs (errServer good msg) fuel =
      some (List.range' 1 (good.length + 1), .error ("list environments: " ++ msg)) := by
  have h := listEnvsLoop_err good msg good.length 0 (by omega) (by omega) [] [] fuel
    (by omega)
  unfold getEnvs listAllEnvironments
  rw [h]
  simp

theorem getEnvs_page_error_witness :
    getEnvs (errServer [[{ ID := 1, Name := "prod/a", LastDeployment := none }]] "boom") 2 =
      some ([1, 2], .error "list environments: boom") :=
  (getEnvs_page_error [[{ ID := 1, Name := "prod/a", LastDeployment := none }]]
      "boom" 2 (by decide)).trans rfl

theorem taskRun_eq_ok (now : Int) (fetch : EnvDep → Except String Environment)
    (ed : EnvDep) (h : getDrift now ed (fetch ed) ≠ DriftResult.panicked) :
    taskRun now fetch ed = .ok (taskOut now fetch ed) := by
  unfold taskRun taskOut
  cases hg : getDrift now ed (fetch ed) with
  | ok row => cases row <;> rfl
  | err e => rfl
  | panicked => exact absurd hg h

theorem mapM_taskRun_ok (now : Int) (fetch : EnvDep → Except String Environment) :
    ∀ l : List EnvDep, (∀ ed ∈ l, getDrift now ed (fetch ed) ≠ DriftResult.panicked) →
      l.mapM (taskRun now fetch) = .ok (l.map (taskOut now fetch)) := by
  intro l
  induction l with
  | nil => intro _; rfl
  | cons a t ih =>
      intro h
      rw [List.mapM_cons, taskRun_eq_ok now fetch a (h a (by simp))]
      rw [ih (fun ed hed => h ed (by simp [hed]))]
      rfl

/-- C7: provided no task panics, `getDrifts` returns with a `nil` error (the
run completes successfully) and its output contains, independently for each
entry, either that entry's log line `get drift <name>: <err>` when its fetch
failed, or that entry's printed row when it succeeded — so one task's
failure neither cancels a sibling nor prevents a sibling's row from
printing. -/
theorem getDrifts_isolation (now : Int) (fetch : EnvDep → Except String Environment)
    (envDeps : List EnvDep)
    (h : ∀ ed ∈ envDeps, getDrift now ed (fetch ed) ≠ DriftResult.panicked) :
    getDrifts now fetch envDeps =
      some (driftsHeader, (envDeps.map (taskOut now fetch)).reduceOption, none) ∧
    (∀ ed ∈ envDeps, ∀ e, getDrift now ed (fetch ed) = .err e →
      TaskOutput.logged ("get drift " ++ ed.Name ++ ": " ++ e) ∈
        (envDeps.map (taskOut now fetch)).reduceOption) ∧
    (∀ ed ∈ envDeps, ∀ line, getDrift now ed (fetch ed) = .ok (some line) →
      TaskOutput.row line ∈ (envDeps.map (taskOut now fetch)).reduceOption) := by
  refine ⟨?_, ?_, ?_⟩
  · unfold getDrifts
    rw [mapM_taskRun_ok now fetch envDeps h]
  · intro ed hed e hg
    have hout : taskOut now fetch ed =
        some (TaskOutput.logged ("get drift " ++ ed.Name ++ ": " ++ e)) := by
      unfold taskOut
      rw [hg]
    refine List.reduceOption_mem_iff.mpr ?_
    rw [List.mem_map]
    exact ⟨ed, hed, hout⟩
  · intro ed hed line hg
    have hout : taskOut now fetch ed = some (TaskOutput.row line) := by
      unfold taskOut
      rw [hg]
    refine List.reduceOption_mem_iff.mpr ?_
    rw [List.mem_map]
    exact ⟨ed, hed, hout⟩

theorem getDrifts_isolation_witness :
    getDrifts (74 * 3600 * 1000000000)
      (fun ed =>
        if ed.Prod = 1 then .error "boom"
        else .ok { ID := 2, Name := "prod/api",
                   LastDeployment := some { Deployable :=
                     { FinishedAt := some 0,
                       Commit := some { ShortID := "abc1234" } } } })
      [{ Name := "bad", Prod := 1 }, { Name := "api", Prod := 2 }] =
      some (driftsHeader,
        [TaskOutput.logged "get drift bad: get prod environment: boom",
         TaskOutput.row "api               | abc1234  | 3 days 2 hours"],
        none) :=
  ((getDrifts_isolation (74 * 3600 * 1000000000)
      (fun ed =>
        if ed.Prod = 1 then .error "boom"
        else .ok { ID := 2, Name := "prod/api",
                   LastDeployment := some { Deployable :=
                     { FinishedAt := some 0,
                       Commit := some { ShortID := "abc1234" } } } })
      [{ Name := "bad", Prod := 1 }, { Name := "api", Prod := 2 }]
      (by decide)).1).trans (by decide)

/-- C10: whenever `getDrifts` returns at all, its returned error is `nil`,
so the `log.Fatalf("get drifts: …")` branch in `main` is unreachable. -/
theorem getDrifts_error_nil (now : Int) (fetch : EnvDep → Except String Environment)
    (envDeps : List EnvDep) (res : String × List TaskOutput × Option String)
    (h : getDrifts now fetch envDeps = some res) : res.2.2 = none := by
  unfold getDrifts at h
  cases hm : envDeps.mapM (taskRun now fetch) with
  | error e => rw [hm] at h; cases h
  | ok outs =>
      rw [hm] at h
      cases h
      rfl

theorem getDrifts_error_nil_witness :
    ((driftsHeader, ([] : List TaskOutput), (none : Option String)) :
        String × List TaskOutput × Option String).2.2 = none :=
  getDrifts_error_nil 0 (fun _ => .error "x") []
    (driftsHeader, [], none) rfl

/-- C8: in every reachable state of the fan-out/join semantics of
`getDrifts`, (a) while the main thread is about to spawn task `k`, exactly
the tasks below `k` have been started — in particular when it reaches the
join (`wg.Wait`, control point `spawning envDeps.length`) one task per
entry has been started; and (b) if the main thread has returned, every one
of the `envDeps.length` tasks has finished. -/
theorem getDrifts_fanout_join (envDeps : List EnvDep) (s : DriftsExec)
    (h : DriftsReach envDeps s) :
    (∀ k, s.pc = .spawning k →
      k ≤ envDeps.length ∧ ∀ i, i < k → s.task i ≠ .notStarted) ∧
    (s.pc = .returned → ∀ i, i < envDeps.length → s.task i = .done) := by
  induction h with
  | init =>
      constructor
      · intro k hk
        simp only [driftsInit] at hk
        injection hk with hk0
        exact ⟨by omega, fun i hi => by omega⟩
      · intro hret
        simp only [driftsInit] at hret
        exact absurd hret (by simp)
  | step hreach hstep ih =>
      cases hstep with
      | spawn k hpc hk =>
          constructor
          · intro k' hk'
            injection hk' with hkk
            subst hkk
            refine ⟨by omega, fun i hi => ?_⟩
            unfold updTask
            by_cases hik : i = k
            · simp [hik]
            · simp only [if_neg hik]
              exact (ih.1 k hpc).2 i (by omega)
          · intro hret
            exact absurd hret (by simp)
      | finish i hi =>
          constructor
          · intro k hk
            have hk2 := ih.1 k hk
            refine ⟨hk2.1, fun j hj => ?_⟩
            unfold updTask
            by_cases hji : j = i
            · simp [hji]
            · simp only [if_neg hji]
              exact hk2.2 j hj
          · intro hret j hj
            unfold updTask
            by_cases hji : j = i
            · simp [hji]
            · simp only [if_neg hji]
              exact ih.2 hret j hj
      | ret hpc hall =>
          constructor
          · intro k hk
            exact absurd hk (by simp)
          · intro _ i hi
            exact hall i hi

theorem getDrifts_fanout_join_witness :
    updTask (updTask driftsInit.task 0 TaskState.running) 0 TaskState.done 0 =
      TaskState.done := by
  have h1 : DriftsReach [{ Name := "api", Prod := 2 }]
      ⟨MainPC.spawning 1, updTask driftsInit.task 0 TaskState.running⟩ :=
    DriftsReach.init.step (DriftsStep.spawn driftsInit 0 rfl (by decide))
  have h2 : DriftsReach [{ Name := "api", Prod := 2 }]
      ⟨MainPC.spawning 1,
        updTask (updTask driftsInit.task 0 TaskState.running) 0 TaskState.done⟩ :=
    h1.step (DriftsStep.finish _ 0 rfl)
  have h3 : DriftsReach [{ Name := "api", Prod := 2 }]
      ⟨MainPC.returned,
        updTask (updTask driftsInit.task 0 TaskState.running) 0 TaskState.done⟩ :=
    h2.step (DriftsStep.ret _ rfl (by decide))
  exact (getDrifts_fanout_join [{ Name := "api", Prod := 2 }] _ h3).2 rfl 0 (by decide)

end TimeSinceDeploy
